import Mathlib

/-!
# go-errors: the annotation chain of `errors.go`

A shallow embedding of package `errs` (`errors.go`): the node type `Error`, the
constructors `New` and `Wrap`, the discriminator `Is`, the call-site helper
`errorFrame`, and the renderer `printStack` / `Error`.

Modelling conventions
* Go pointers `*Error` are addresses into an explicit heap (`Heap`, a list of
  nodes; the address of a node is its index; `none` is the nil pointer).
  Allocation `&Error{...}` appends to the heap.
* A value of interface type `error` is an `ErrorValue`: the nil interface, a
  foreign error (anything that is not a `*Error`; only its `Error()` text is
  observable), or a `*Error` pointer boxed in the interface, which may itself be
  a nil pointer.
* The call stack is explicit: a list of frames, innermost first.
* A run-time panic (nil dereference) and a recursion that does not come back
  are results of type `Fault`.
-/

set_option linter.dupNamespace false

namespace errs

/-- The part of `runtime.Frame` the library reads. -/
structure Frame where
  File : String
  Line : Int
  Function : String
  deriving DecidableEq, Repr

/-- A value of type `any` stored as metadata. -/
inductive Any where
  | str (s : String)
  | int (i : Int)
  | bool (b : Bool)
  | nil
  deriving DecidableEq, Repr

/-- The struct `Error` (lines 11-18); `ErrorCode` is `int32`, held as an `Int`. -/
structure Error where
  Code : Int
  Message : String
  Metadata : List Any
  frame : Option Frame
  source : Option Nat
  wrapper : Option Nat
  deriving DecidableEq, Repr

/-- The allocated `Error` nodes; a pointer is an index. -/
abbrev Heap := List Error

/-- A value of the interface type `error`. -/
inductive ErrorValue where
  | nil
  | foreign (text : String)
  | chain (p : Option Nat)
  deriving DecidableEq, Repr

/-- Ways a call can fail to return. -/
inductive Fault where
  | nilDeref
  | dangling
  | noReturn
  deriving DecidableEq, Repr

/-- The implicit conversion of a `*Error` to the interface type `error`. -/
def asError (p : Option Nat) : ErrorValue := ErrorValue.chain p

/-- The zero value of `runtime.Frame`, which `frames.Next()` yields when there is no frame. -/
def zeroFrame : Frame := { File := "", Line := 0, Function := "" }

/-- The frame of `runtime.Callers` itself (skip index 0). -/
def callersFrame : Frame := { File := "runtime/extern.go", Line := 0, Function := "runtime.Callers" }

/-- The frame of `errorFrame` while it calls `runtime.Callers` (line 31). -/
def errorFrameFrame : Frame := { File := "errors.go", Line := 31, Function := "errs.errorFrame" }

/-- The frame of `New` while it calls `errorFrame` (line 45). -/
def newFrame : Frame := { File := "errors.go", Line := 45, Function := "errs.New" }

/-- The frame of `Wrap` while it calls `errorFrame` (line 68). -/
def wrapFrame : Frame := { File := "errors.go", Line := 68, Function := "errs.Wrap" }

/-- The frame of `Wrap` while it calls `New` (line 73). -/
def wrapNewFrame : Frame := { File := "errors.go", Line := 73, Function := "errs.Wrap" }

/-- `runtime.Callers(skip, pc)`: the frames of the running stack from index `skip` on
(index 0 is `Callers` itself), at most `len(pc)` of them. -/
def callers (skip cap : Nat) (stack : List Frame) : List Frame :=
  ((callersFrame :: stack).drop skip).take cap

/-- `errorFrame` (lines 28-35); `stack` is the stack at the call of `errorFrame`, innermost
first, so its head is the frame of the function that called `errorFrame`. -/
def errorFrame (stack : List Frame) : Frame :=
  match callers 3 64 (errorFrameFrame :: stack) with
  | [] => zeroFrame
  | f :: _ => f

/-- `fmt.Sprintf("%+v", v)` for one metadata value. -/
def fmtAny : Any → String
  | Any.str s => s
  | Any.int i => toString i
  | Any.bool b => if b then "true" else "false"
  | Any.nil => "<nil>"

/-- `fmt.Sprintf("%+v", e.Metadata)` for the slice: the elements between brackets,
separated by one space. -/
def fmtSlice (md : List Any) : String :=
  "[" ++ " ".intercalate (md.map fmtAny) ++ "]"

/-- `fmt.Sprintf(errorFormat, File, Line, Function, Message)` (lines 86-93). -/
def errorLine (isSource : Bool) (f : Frame) (message : String) : String :=
  f.File ++ ":" ++ toString f.Line ++ ": " ++ f.Function ++ " | " ++ message ++
    (if isSource then "\n" else "\n\t")

/-- `fmt.Sprintf(metaFormat, e.Metadata)` (line 96); both branches use the same format. -/
def metaLine (md : List Any) : String :=
  fmtSlice md ++ "\n\t"

/-- `(*Error).printStack` (lines 76-98), writing to the buffer `b`. The first argument
bounds the depth of the recursion. -/
def printStack (h : Heap) : Nat → Option Nat → String → Except Fault String
  | _, none, b => Except.ok b
  | 0, some _, _ => Except.error Fault.noReturn
  | fuel + 1, some a, b =>
    match h[a]? with
    | none => Except.error Fault.dangling
    | some e =>
      match (if e.wrapper != none then printStack h fuel e.wrapper b else Except.ok b) with
      | Except.error x => Except.error x
      | Except.ok b1 =>
        let isSource := e.source == some a
        match e.frame with
        | none => Except.error Fault.nilDeref
        | some f =>
          let b2 := b1 ++ errorLine isSource f e.Message
          if e.Metadata.length > 0 then Except.ok (b2 ++ metaLine e.Metadata)
          else Except.ok b2

/-- `(*Error).Error` (lines 22-26). A chain without a cycle has at most as many nodes as
the heap, so that depth is given to the recursion. -/
def Error.Error (h : Heap) (e : Option Nat) : Except Fault String :=
  printStack h h.length e ""

/-- The call `err.Error()` on a non-nil interface value. -/
def errorText (h : Heap) : ErrorValue → Except Fault String
  | ErrorValue.nil => Except.error Fault.nilDeref
  | ErrorValue.foreign t => Except.ok t
  | ErrorValue.chain p => Error.Error h p

/-- `New` (lines 37-50). Returns the pointer and the heap after the call. -/
def New (h : Heap) (stack : List Frame) (err : ErrorValue) (code : Int) (metadata : List Any) :
    Except Fault (Option Nat × Heap) :=
  if err = ErrorValue.nil then Except.ok (none, h)
  else
    match errorText h err with
    | Except.error x => Except.error x
    | Except.ok msg =>
      let a := h.length
      let e : Error :=
        { Code := code, Message := msg, Metadata := metadata,
          frame := some (errorFrame (newFrame :: stack)), source := none, wrapper := none }
      Except.ok (some a, h ++ [{ e with source := some a }])

/-- `Is` (lines 52-58). -/
def Is (err : ErrorValue) : Bool :=
  if err = ErrorValue.nil then false
  else
    match err with
    | ErrorValue.chain _ => true
    | _ => false

/-- `Wrap` (lines 60-74). Returns the pointer and the heap after the call. -/
def Wrap (h : Heap) (stack : List Frame) (err : ErrorValue) (message : String)
    (metadata : List Any) : Except Fault (Option Nat × Heap) :=
  if err = ErrorValue.nil then Except.ok (none, h)
  else
    match err with
    | ErrorValue.chain p =>
      match p with
      | none => Except.error Fault.nilDeref
      | some n =>
        match h[n]? with
        | none => Except.error Fault.dangling
        | some e =>
          Except.ok (some h.length,
            h ++ [{ Code := 0, Message := message, Metadata := metadata,
                    frame := some (errorFrame (wrapFrame :: stack)),
                    source := e.source, wrapper := some n }])
    | _ => New h (wrapNewFrame :: stack) err 0 metadata

/-- The rendering of the node a call returned, in the heap the call left. -/
def renderOf : Except Fault (Option Nat × Heap) → Except Fault String
  | Except.ok (p, h) => Error.Error h p
  | Except.error x => Except.error x

/-- The text one node contributes to a rendering: its primary line, then its metadata
line when it has metadata (lines 93-97). -/
def segment (isSource : Bool) (f : Frame) (message : String) (md : List Any) : String :=
  errorLine isSource f message ++ (if md.length > 0 then metaLine md else "")

/-- The text `m` occurs in the text `s`. -/
def occursIn (m s : String) : Prop := m.toList <:+: s.toList

instance (m s : String) : Decidable (occursIn m s) := by
  unfold occursIn; infer_instance

/-- A caller frame used in the examples. -/
def mainFrame : Frame := { File := "main.go", Line := 10, Function := "main.main" }

/-- A second caller frame used in the examples. -/
def saveFrame : Frame := { File := "store.go", Line := 42, Function := "main.save" }

/-- A heap holding one root node, as `New` leaves it. -/
def heap1 : Heap :=
  [{ Code := 5, Message := "disk full", Metadata := [], frame := some mainFrame,
     source := some 0, wrapper := none }]

/-! ## Reachable heaps and their invariant -/

/-- The heaps a program can produce: from the empty heap, any finite sequence of calls of
`New` and `Wrap` that return. -/
inductive Reachable : Heap → Prop where
  | empty : Reachable []
  | new {h : Heap} {stack : List Frame} {err : ErrorValue} {code : Int} {md : List Any}
      {p : Option Nat} {h2 : Heap} :
      Reachable h → New h stack err code md = Except.ok (p, h2) → Reachable h2
  | wrap {h : Heap} {stack : List Frame} {err : ErrorValue} {m : String} {md : List Any}
      {p : Option Nat} {h2 : Heap} :
      Reachable h → Wrap h stack err m md = Except.ok (p, h2) → Reachable h2

/-- The shape of the node `e` stored at address `a`: it has a frame and a source `s`; with no
wrapper it is its own source; with a wrapper `w`, the wrapper is an older node that has the
same source. -/
def NodeOk (h : Heap) (a : Nat) (e : Error) : Prop :=
  (∃ f, e.frame = some f) ∧ ∃ s, e.source = some s ∧
    ((e.wrapper = none ∧ s = a) ∨
     (∃ w ew, e.wrapper = some w ∧ w < a ∧ s ≤ w ∧ h[w]? = some ew ∧ ew.source = some s))

/-- Every node of the heap has the shape `NodeOk`. -/
def Inv (h : Heap) : Prop := ∀ (a : Nat) (e : Error), h[a]? = some e → NodeOk h a e

/-- For every buffer `b`, rendering the node at `a` into `b` with recursion depth `d` or more
returns `b` followed by `t`. -/
def Renders (h : Heap) (a d : Nat) (t : String) : Prop :=
  ∀ (fuel : Nat) (b : String), d ≤ fuel → printStack h fuel (some a) b = Except.ok (b ++ t)

/-- One later call of `Wrap`: the caller's stack, the message and the metadata. -/
structure WrapCall where
  stack : List Frame
  message : String
  metadata : List Any

/-- A client that wraps the pointer `p` once per element of the list, each call on the
result of the one before. -/
def wrapAll : Heap → Option Nat → List WrapCall → Except Fault (Option Nat × Heap)
  | h, p, [] => Except.ok (p, h)
  | h, p, c :: cs =>
    match Wrap h c.stack (asError p) c.message c.metadata with
    | Except.error x => Except.error x
    | Except.ok (w, h2) => wrapAll h2 w cs

/-- A client that calls `New` on a foreign error with text `t` and then wraps the result
once per element of `cs`. -/
def buildChain (h : Heap) (stack : List Frame) (t : String) (code : Int) (md : List Any)
    (cs : List WrapCall) : Except Fault (Option Nat × Heap) :=
  match New h stack (ErrorValue.foreign t) code md with
  | Except.error x => Except.error x
  | Except.ok (r, h2) => wrapAll h2 r cs

/-- The segments of the chain `buildChain` builds: the source node first, then one per
`Wrap` call in the order of the calls. -/
def chainSegments (stack : List Frame) (t : String) (md : List Any) (cs : List WrapCall) :
    List String :=
  segment true (errorFrame (newFrame :: stack)) t md ::
    cs.map (fun c => segment false (errorFrame (wrapFrame :: c.stack)) c.message c.metadata)

/-- The concatenation of a list of texts. -/
def concat : List String → String
  | [] => ""
  | s :: ss => s ++ concat ss

/-! ## Definitions for the statements about whole chains -/

/-- The text of a primary line before its line end:
`<file>:<line>: <function> | <message>`. -/
def primaryText (f : Frame) (message : String) : String :=
  f.File ++ ":" ++ toString f.Line ++ ": " ++ f.Function ++ " | " ++ message

/-- The heap after wrapping the root of `heap1` from `saveFrame`. -/
def heap2 : Heap :=
  heap1 ++ [{ Code := 0, Message := "failed to save file",
              Metadata := [Any.str "path", Any.str "/tmp/x"], frame := some saveFrame,
              source := some 0, wrapper := some 0 }]

/-- The addresses met when the wrapper link is followed from the node at `a`, that node
first, up to the node that has no wrapper; the first argument bounds the number of steps. -/
def chainOf (h : Heap) : Nat → Nat → Option (List Nat)
  | 0, _ => none
  | fuel + 1, a =>
    match h[a]? with
    | none => none
    | some e =>
      match e.wrapper with
      | none => some [a]
      | some w =>
        match chainOf h fuel w with
        | none => none
        | some path => some (a :: path)

/-- The segment the renderer writes for the node at `a` (empty if there is no such node
or it has no frame). -/
def nodeSegment (h : Heap) (a : Nat) : String :=
  match h[a]? with
  | none => ""
  | some e =>
    match e.frame with
    | none => ""
    | some f => segment (e.source == some a) f e.Message e.Metadata

/-- The source test of the renderer (line 83) for the node at `a`. -/
def isSourceAt (h : Heap) (a : Nat) : Bool :=
  match h[a]? with
  | none => false
  | some e => e.source == some a

/-- The frames of the library's own functions. -/
def libraryFrames : List Frame := [errorFrameFrame, newFrame, wrapFrame, wrapNewFrame]

/-! ## Construction -/

/-- C1: for every code, message and metadata, `New(nil, code, metadata...)` and
`Wrap(nil, message, metadata...)` return the nil pointer, and the heap is left as it was:
no node is created. -/
theorem New_Wrap_nil (h : Heap) (stack : List Frame) (code : Int) (message : String)
    (metadata : List Any) :
    New h stack ErrorValue.nil code metadata = Except.ok (none, h) ∧
    Wrap h stack ErrorValue.nil message metadata = Except.ok (none, h) := by
  constructor <;> simp [New, Wrap]

/-- C2: for a chain node `n` (a non-nil `*Error` present in the heap), `Wrap(n, m, md...)`
returns a non-nil pointer `w` to a newly allocated node with `w.source == n.source`,
`w.wrapper == n`, `w.Code == 0`, `w.Message == m`, `w.Metadata == md`; the nodes already in
the heap stay as they were. -/
theorem Wrap_chain_fields (h : Heap) (stack : List Frame) (n : Nat) (en : Error)
    (m : String) (md : List Any) (hn : h[n]? = some en) :
    ∃ (w : Nat) (h2 : Heap) (ew : Error), Wrap h stack (asError (some n)) m md = Except.ok (some w, h2) ∧
      h[w]? = none ∧ h2[w]? = some ew ∧
      ew.source = en.source ∧ ew.wrapper = some n ∧ ew.Code = 0 ∧
      ew.Message = m ∧ ew.Metadata = md ∧
      (∀ (a : Nat) (e : Error), h[a]? = some e → h2[a]? = some e) := by
  refine ⟨h.length,
    h ++ [{ Code := 0, Message := m, Metadata := md,
            frame := some (errorFrame (wrapFrame :: stack)),
            source := en.source, wrapper := some n }],
    { Code := 0, Message := m, Metadata := md,
            frame := some (errorFrame (wrapFrame :: stack)),
            source := en.source, wrapper := some n },
    ?_, ?_, ?_, rfl, rfl, rfl, rfl, rfl, ?_⟩
  · simp only [Wrap, asError, hn]
    rfl
  · simp
  · simp
  · intro a e ha
    have hlt : a < h.length := by
      rcases Nat.lt_or_ge a h.length with hlt | hge
      · exact hlt
      · rw [List.getElem?_eq_none hge] at ha
        cases ha
    rw [List.getElem?_append_left hlt]
    exact ha

/-- Witness for C2: wrapping the root of `heap1`. -/
theorem Wrap_chain_fields_witness :
    ∃ (w : Nat) (h2 : Heap) (ew : Error), Wrap heap1 [saveFrame] (asError (some 0)) "failed to save file"
        [Any.str "path", Any.str "/tmp/x"] = Except.ok (some w, h2) ∧
      heap1[w]? = none ∧ h2[w]? = some ew ∧
      ew.source = (heap1.get ⟨0, by decide⟩).source ∧ ew.wrapper = some 0 ∧ ew.Code = 0 ∧
      ew.Message = "failed to save file" ∧
      ew.Metadata = [Any.str "path", Any.str "/tmp/x"] ∧
      (∀ (a : Nat) (e : Error), heap1[a]? = some e → h2[a]? = some e) :=
  Wrap_chain_fields heap1 [saveFrame] 0 (heap1.get ⟨0, by decide⟩) "failed to save file"
    [Any.str "path", Any.str "/tmp/x"] rfl

/-- C3: for a non-nil foreign cause with text `t`, any code `k` (negative ones included)
and metadata `md`, `New` returns a non-nil pointer `r` to a newly allocated node with
`r.source == r`, `r.wrapper == nil`, `r.Code == k`, `r.Message == t`, `r.Metadata == md`. -/
theorem New_foreign_root (h : Heap) (stack : List Frame) (t : String) (k : Int)
    (md : List Any) :
    ∃ (r : Nat) (h2 : Heap) (er : Error), New h stack (ErrorValue.foreign t) k md = Except.ok (some r, h2) ∧
      h[r]? = none ∧ h2[r]? = some er ∧
      er.source = some r ∧ er.wrapper = none ∧ er.Code = k ∧
      er.Message = t ∧ er.Metadata = md := by
  refine ⟨h.length,
    h ++ [{ Code := k, Message := t, Metadata := md,
            frame := some (errorFrame (newFrame :: stack)),
            source := some h.length, wrapper := none }],
    { Code := k, Message := t, Metadata := md,
            frame := some (errorFrame (newFrame :: stack)),
            source := some h.length, wrapper := none },
    ?_, ?_, ?_, rfl, rfl, rfl, rfl, rfl⟩
  · simp only [New, errorText]
    rfl
  · simp
  · simp

/-- C4: for a non-nil foreign cause with text `t`, `Wrap(c, m, md...)` is the result of the
call `New(c, 0, md...)` that `Wrap` makes: a root node (its own source, no wrapper) with
`Code == 0`, `Message == t`, `Metadata == md`; the result is the same for every other
message. -/
theorem Wrap_foreign_is_New (h : Heap) (stack : List Frame) (t m : String)
    (md : List Any) :
    Wrap h stack (ErrorValue.foreign t) m md
        = New h (wrapNewFrame :: stack) (ErrorValue.foreign t) 0 md ∧
    (∃ (r : Nat) (h2 : Heap) (er : Error), Wrap h stack (ErrorValue.foreign t) m md = Except.ok (some r, h2) ∧
      h[r]? = none ∧ h2[r]? = some er ∧
      er.source = some r ∧ er.wrapper = none ∧ er.Code = 0 ∧
      er.Message = t ∧ er.Metadata = md) ∧
    (∀ m2 : String, Wrap h stack (ErrorValue.foreign t) m2 md
        = Wrap h stack (ErrorValue.foreign t) m md) := by
  have hW : ∀ x : String, Wrap h stack (ErrorValue.foreign t) x md
      = New h (wrapNewFrame :: stack) (ErrorValue.foreign t) 0 md := by
    intro x
    simp [Wrap]
  refine ⟨hW m, ?_, fun m2 => (hW m2).trans (hW m).symm⟩
  refine ⟨h.length,
    h ++ [{ Code := 0, Message := t, Metadata := md,
            frame := some (errorFrame (newFrame :: wrapNewFrame :: stack)),
            source := some h.length, wrapper := none }],
    { Code := 0, Message := t, Metadata := md,
            frame := some (errorFrame (newFrame :: wrapNewFrame :: stack)),
            source := some h.length, wrapper := none },
    ?_, ?_, ?_, rfl, rfl, rfl, rfl, rfl⟩
  · rw [hW m]
    simp only [New, errorText]
    rfl
  · simp
  · simp

/-- C5 (as stated, refuted): wrapping the foreign error "disk full" with the message
"disk" renders a line that contains the message, because the message occurs in the text of
the cause. -/
theorem Wrap_foreign_render_contains_message :
    renderOf (Wrap [] [mainFrame] (ErrorValue.foreign "disk full") "disk" [])
        = Except.ok "errors.go:73: errs.Wrap | disk full\n" ∧
    occursIn "disk" "errors.go:73: errs.Wrap | disk full\n" := by
  constructor
  · rfl
  · decide

/-- C5 (amended): the rendering of `Wrap(c, m, md...)` for a foreign cause with text `t` is
the segment of a source node built from the captured frame, `t` and `md`; the message `m`
is not part of it, so every message gives the same rendering. -/
theorem Wrap_foreign_render_drops_message (h : Heap) (stack : List Frame) (t m : String)
    (md : List Any) :
    renderOf (Wrap h stack (ErrorValue.foreign t) m md)
        = Except.ok (segment true (errorFrame (newFrame :: wrapNewFrame :: stack)) t md) ∧
    (∀ m2 : String, renderOf (Wrap h stack (ErrorValue.foreign t) m2 md)
        = renderOf (Wrap h stack (ErrorValue.foreign t) m md)) := by
  have hW : ∀ x : String, renderOf (Wrap h stack (ErrorValue.foreign t) x md)
      = Except.ok (segment true (errorFrame (newFrame :: wrapNewFrame :: stack)) t md) := by
    intro x
    by_cases hmd : md.length > 0
    · simp [Wrap, New, errorText, renderOf, Error.Error, printStack, segment, hmd]
    · simp [Wrap, New, errorText, renderOf, Error.Error, printStack, segment, hmd]
  exact ⟨hW m, fun m2 => (hW m2).trans (hW m).symm⟩

/-- C6 (the code at the failing input): `Is` is false on the nil interface and on every
foreign error and true on every non-nil `*Error`; but the nil `*Error` that `New(nil, ...)`
and `Wrap(nil, ...)` return as their absent result, handed to `Is` as an `error`, is an
interface value that is not nil, it passes the nil test of line 53 and the type assertion
succeeds: `Is` returns true for a value that is not a node. So `Is v` is true exactly when
`v` holds a `*Error`, nil pointer included. -/
theorem Is_typed_nil_true (h : Heap) (stack : List Frame) (code : Int) (m : String)
    (md : List Any) :
    Is ErrorValue.nil = false ∧
    (∀ t : String, Is (ErrorValue.foreign t) = false) ∧
    (∀ a : Nat, Is (asError (some a)) = true) ∧
    New h stack ErrorValue.nil code md = Except.ok (none, h) ∧
    Wrap h stack ErrorValue.nil m md = Except.ok (none, h) ∧
    Is (asError none) = true ∧
    (∀ a : Nat, asError none ≠ asError (some a)) ∧
    (∀ v : ErrorValue, Is v = true ↔ ((∃ a : Nat, v = asError (some a)) ∨ v = asError none)) := by
  refine ⟨rfl, fun _ => rfl, fun _ => rfl, ?_, ?_, rfl, ?_, ?_⟩
  · simp [New]
  · simp [Wrap]
  · intro a hc
    simp [asError] at hc
  · intro v
    cases v with
    | nil => simp [Is, asError]
    | foreign t => simp [Is, asError]
    | chain p =>
      cases p with
      | none => simp [Is, asError]
      | some a => simp [Is, asError]

/-- C7 (the code at the failing input): the nil `*Error` that `New(nil, ...)` or
`Wrap(nil, ...)` returned, handed to `Wrap` as an `error`, is an interface value that is
not nil; `Wrap` passes its nil test, the type assertion succeeds, and reading `e.source`
dereferences the nil pointer. -/
theorem Wrap_typed_nil_faults (h : Heap) (stack stack2 : List Frame) (code : Int)
    (m1 m2 : String) (md md2 : List Any) :
    New h stack ErrorValue.nil code md = Except.ok (none, h) ∧
    Wrap h stack ErrorValue.nil m1 md = Except.ok (none, h) ∧
    asError none ≠ ErrorValue.nil ∧
    Wrap h stack2 (asError none) m2 md2 = Except.error Fault.nilDeref := by
  refine ⟨?_, ?_, ?_, ?_⟩
  · simp [New]
  · simp [Wrap]
  · simp [asError]
  · simp [Wrap, asError]

/-! ## Rendering -/

theorem getElem?_append_of_some (h x : Heap) (a : Nat) (e : Error) (ha : h[a]? = some e) :
    (h ++ x)[a]? = some e := by
  have hlt : a < h.length := by
    rcases Nat.lt_or_ge a h.length with hlt | hge
    · exact hlt
    · rw [List.getElem?_eq_none hge] at ha
      cases ha
  rw [List.getElem?_append_left hlt]
  exact ha

theorem printStack_none (h : Heap) (fuel : Nat) (b : String) :
    printStack h fuel none b = Except.ok b := by
  cases fuel <;> rfl

/-- One step of `printStack`: after the wrapper has been rendered, the node appends its
own segment. -/
theorem printStack_step (h : Heap) (fuel a : Nat) (e : Error) (f : Frame) (b b1 : String)
    (he : h[a]? = some e) (hf : e.frame = some f)
    (hw : printStack h fuel e.wrapper b = Except.ok b1) :
    printStack h (fuel + 1) (some a) b
      = Except.ok (b1 ++ segment (e.source == some a) f e.Message e.Metadata) := by
  have hin : (if e.wrapper != none then printStack h fuel e.wrapper b else Except.ok b)
      = Except.ok b1 := by
    cases hwr : e.wrapper with
    | none =>
      rw [hwr, printStack_none] at hw
      simpa using hw
    | some w =>
      rw [hwr] at hw
      simpa using hw
  simp only [printStack, he, hin, hf, segment]
  by_cases hmd : e.Metadata.length > 0
  · simp [hmd, String.append_assoc]
  · simp [hmd]

/-- Rendering reads only nodes that are there, so it gives the same text in a larger heap. -/
theorem printStack_append (h x : Heap) :
    ∀ (fuel : Nat) (p : Option Nat) (b s : String),
      printStack h fuel p b = Except.ok s → printStack (h ++ x) fuel p b = Except.ok s := by
  intro fuel
  induction fuel with
  | zero =>
    intro p b s hs
    cases p with
    | none => simpa [printStack] using hs
    | some a => simp [printStack] at hs
  | succ k ih =>
    intro p b s hs
    cases p with
    | none => simpa [printStack] using hs
    | some a =>
      cases he : h[a]? with
      | none => simp [printStack, he] at hs
      | some e =>
        have he2 := getElem?_append_of_some h x a e he
        cases hwr : e.wrapper with
        | none =>
          simp only [printStack, he, he2, hwr] at hs ⊢
          exact hs
        | some w =>
          cases hin : printStack h k (some w) b with
          | error y => simp [printStack, he, hwr, hin] at hs
          | ok b1 =>
            have hin2 := ih (some w) b b1 hin
            simp only [printStack, he, he2, hwr, hin, hin2] at hs ⊢
            exact hs

/-! ## The invariant of reachable heaps -/

theorem NodeOk_append (h x : Heap) (a : Nat) (e : Error) (hok : NodeOk h a e) :
    NodeOk (h ++ x) a e := by
  obtain ⟨hf, s, hs, hcase⟩ := hok
  refine ⟨hf, s, hs, ?_⟩
  rcases hcase with hroot | ⟨w, ew, hw, hlt, hle, hew, hsrc⟩
  · exact Or.inl hroot
  · exact Or.inr ⟨w, ew, hw, hlt, hle, getElem?_append_of_some h x w ew hew, hsrc⟩

/-- Appending a node of the right shape keeps the invariant. -/
theorem Inv_snoc (h : Heap) (e : Error) (hinv : Inv h) (hok : NodeOk (h ++ [e]) h.length e) :
    Inv (h ++ [e]) := by
  intro a e2 ha
  rcases Nat.lt_or_ge a h.length with hlt | hge
  · rw [List.getElem?_append_left hlt] at ha
    exact NodeOk_append h [e] a e2 (hinv a e2 ha)
  · have hlen : a < (h ++ [e]).length := by
      rcases Nat.lt_or_ge a (h ++ [e]).length with h1 | h1
      · exact h1
      · rw [List.getElem?_eq_none h1] at ha
        cases ha
    have hlen2 : (h ++ [e]).length = h.length + 1 := by simp
    have haeq : a = h.length := by omega
    subst haeq
    have : (h ++ [e])[h.length]? = some e := by simp
    rw [this] at ha
    cases ha
    exact hok

theorem Inv_source_le (h : Heap) (hinv : Inv h) (a : Nat) (e : Error) (ha : h[a]? = some e) :
    ∃ s, e.source = some s ∧ s ≤ a := by
  obtain ⟨_, s, hs, hcase⟩ := hinv a e ha
  refine ⟨s, hs, ?_⟩
  rcases hcase with ⟨_, hroot⟩ | ⟨w, ew, _, hlt, hle, _, _⟩
  · omega
  · omega

theorem Inv_New (h : Heap) (stack : List Frame) (err : ErrorValue) (code : Int)
    (md : List Any) (p : Option Nat) (h2 : Heap) (hinv : Inv h)
    (hN : New h stack err code md = Except.ok (p, h2)) : Inv h2 := by
  unfold New at hN
  by_cases hnil : err = ErrorValue.nil
  · simp only [hnil, if_true] at hN
    cases hN
    exact hinv
  · simp only [hnil, if_false] at hN
    cases htxt : errorText h err with
    | error y => simp [htxt] at hN
    | ok msg =>
      simp only [htxt] at hN
      cases hN
      apply Inv_snoc h _ hinv
      exact ⟨⟨_, rfl⟩, h.length, rfl, Or.inl ⟨rfl, rfl⟩⟩

theorem Inv_Wrap (h : Heap) (stack : List Frame) (err : ErrorValue) (m : String)
    (md : List Any) (p : Option Nat) (h2 : Heap) (hinv : Inv h)
    (hW : Wrap h stack err m md = Except.ok (p, h2)) : Inv h2 := by
  cases err with
  | nil =>
    simp [Wrap] at hW
    obtain ⟨_, rfl⟩ := hW
    exact hinv
  | foreign t =>
    have : Wrap h stack (ErrorValue.foreign t) m md
        = New h (wrapNewFrame :: stack) (ErrorValue.foreign t) 0 md := by simp [Wrap]
    rw [this] at hW
    exact Inv_New h _ _ _ _ p h2 hinv hW
  | chain q =>
    cases q with
    | none => simp [Wrap] at hW
    | some n =>
      cases hn : h[n]? with
      | none => simp [Wrap, hn] at hW
      | some en =>
        simp only [Wrap, hn] at hW
        simp at hW
        obtain ⟨_, rfl⟩ := hW
        obtain ⟨s, hs, hle⟩ := Inv_source_le h hinv n en hn
        have hlt : n < h.length := by
          rcases Nat.lt_or_ge n h.length with h1 | h1
          · exact h1
          · rw [List.getElem?_eq_none h1] at hn
            cases hn
        apply Inv_snoc h _ hinv
        exact ⟨⟨_, rfl⟩, s, hs, Or.inr ⟨n, en, rfl, hlt, hle,
          getElem?_append_of_some h _ n en hn, hs⟩⟩

/-- Every reachable heap satisfies the invariant. -/
theorem Reachable_Inv (h : Heap) (hr : Reachable h) : Inv h := by
  induction hr with
  | empty =>
    intro a e ha
    simp at ha
  | new _ hN ih => exact Inv_New _ _ _ _ _ _ _ ih hN
  | wrap _ hW ih => exact Inv_Wrap _ _ _ _ _ _ _ ih hW

/-- In a heap with the invariant every node renders, with recursion depth its address
plus one. -/
theorem Inv_renders (h : Heap) (hinv : Inv h) :
    ∀ (a : Nat) (e : Error), h[a]? = some e → ∃ t, Renders h a (a + 1) t := by
  intro a
  induction a using Nat.strong_induction_on with
  | _ a ih =>
    intro e ha
    obtain ⟨⟨f, hf⟩, s, hs, hcase⟩ := hinv a e ha
    rcases hcase with ⟨hwr, _⟩ | ⟨w, ew, hwr, hlt, _, hew, _⟩
    · refine ⟨segment (e.source == some a) f e.Message e.Metadata, ?_⟩
      intro fuel b hfuel
      obtain ⟨k, rfl⟩ : ∃ k, fuel = k + 1 := ⟨fuel - 1, by omega⟩
      have hw : printStack h k e.wrapper b = Except.ok b := by
        rw [hwr, printStack_none]
      exact printStack_step h k a e f b b ha hf hw
    · obtain ⟨tw, htw⟩ := ih w hlt ew hew
      refine ⟨tw ++ segment (e.source == some a) f e.Message e.Metadata, ?_⟩
      intro fuel b hfuel
      obtain ⟨k, rfl⟩ : ∃ k, fuel = k + 1 := ⟨fuel - 1, by omega⟩
      have hw : printStack h k e.wrapper b = Except.ok (b ++ tw) := by
        rw [hwr]
        exact htw k b (by omega)
      rw [printStack_step h k a e f b (b ++ tw) ha hf hw, String.append_assoc]

theorem lt_length_of_getElem? (h : Heap) (a : Nat) (e : Error) (ha : h[a]? = some e) :
    a < h.length := by
  rcases Nat.lt_or_ge a h.length with h1 | h1
  · exact h1
  · rw [List.getElem?_eq_none h1] at ha
    cases ha

/-- In a heap with the invariant the source test of the renderer holds exactly for the
nodes without a wrapper. -/
theorem Inv_isSource (h : Heap) (hinv : Inv h) (a : Nat) (e : Error) (ha : h[a]? = some e) :
    (e.source == some a) = decide (e.wrapper = none) := by
  obtain ⟨_, s, hs, hcase⟩ := hinv a e ha
  rcases hcase with ⟨hwr, hsa⟩ | ⟨w, ew, hwr, hlt, hle, _, _⟩
  · simp [hs, hwr, hsa]
  · have : s ≠ a := by omega
    simp [hs, hwr, this]

/-- In a heap with the invariant: the node has a frame, its wrapper renders to some text
`pre`, and the node renders to `pre` followed by its own segment. -/
theorem Inv_render_node (h : Heap) (hinv : Inv h) (a : Nat) (e : Error)
    (ha : h[a]? = some e) :
    ∃ f pre, e.frame = some f ∧
      (∀ fuel b, a ≤ fuel → printStack h fuel e.wrapper b = Except.ok (b ++ pre)) ∧
      Renders h a (a + 1) (pre ++ segment (decide (e.wrapper = none)) f e.Message e.Metadata) := by
  obtain ⟨⟨f, hf⟩, s, hs, hcase⟩ := hinv a e ha
  have hsrc := Inv_isSource h hinv a e ha
  have hpre : ∃ pre, ∀ fuel b, a ≤ fuel →
      printStack h fuel e.wrapper b = Except.ok (b ++ pre) := by
    rcases hcase with ⟨hwr, _⟩ | ⟨w, ew, hwr, hlt, _, hew, _⟩
    · refine ⟨"", ?_⟩
      intro fuel b _
      rw [hwr, printStack_none, String.append_empty]
    · obtain ⟨tw, htw⟩ := Inv_renders h hinv w ew hew
      refine ⟨tw, ?_⟩
      intro fuel b hfuel
      rw [hwr]
      exact htw fuel b (by omega)
  obtain ⟨pre, hpre⟩ := hpre
  refine ⟨f, pre, hf, hpre, ?_⟩
  intro fuel b hfuel
  obtain ⟨k, rfl⟩ : ∃ k, fuel = k + 1 := ⟨fuel - 1, by omega⟩
  rw [printStack_step h k a e f b (b ++ pre) ha hf (hpre k b (by omega)), hsrc,
    String.append_assoc]

theorem errorLine_eq (isSource : Bool) (f : Frame) (message : String) :
    errorLine isSource f message
      = f.File ++ ":" ++ toString f.Line ++ ": " ++ f.Function ++ " | " ++ message ++ "\n"
          ++ (if isSource then "" else "\t") := by
  cases isSource
  · have : ("\n\t" : String) = "\n" ++ "\t" := by decide
    simp [errorLine, this, String.append_assoc]
  · simp [errorLine]

theorem Renders_unique (h : Heap) (a d : Nat) (t1 t2 : String) (h1 : Renders h a d t1)
    (h2 : Renders h a d t2) : t1 = t2 := by
  have e1 := h1 d "" (Nat.le_refl d)
  have e2 := h2 d "" (Nat.le_refl d)
  rw [e1, String.empty_append, String.empty_append] at e2
  cases e2
  rfl

/-- In a heap with the invariant, the rendering of a node starts with the primary line of
its source node, written without the tab. -/
theorem Inv_source_first (h : Heap) (hinv : Inv h) :
    ∀ (a : Nat) (e : Error) (t : String), h[a]? = some e → Renders h a (a + 1) t →
      ∃ (s : Nat) (es : Error) (fs : Frame) (rest : String),
        e.source = some s ∧ h[s]? = some es ∧ es.frame = some fs ∧
        t = errorLine true fs es.Message ++ rest := by
  intro a
  induction a using Nat.strong_induction_on with
  | _ a ih =>
    intro e t ha ht
    obtain ⟨f, pre, hf, hpre, hrender⟩ := Inv_render_node h hinv a e ha
    have hteq := Renders_unique h a (a + 1) _ _ ht hrender
    obtain ⟨_, s, hs, hcase⟩ := hinv a e ha
    rcases hcase with ⟨hwr, hsa⟩ | ⟨w, ew, hwr, hlt, _, hew, hsrc⟩
    · have hp := hpre a "" (Nat.le_refl a)
      rw [hwr, printStack_none, String.empty_append] at hp
      have hp2 : "" = pre := Except.ok.inj hp
      subst hp2
      subst hsa
      refine ⟨s, e, f, if e.Metadata.length > 0 then metaLine e.Metadata else "", hs, ha, hf, ?_⟩
      rw [hteq, hwr]
      simp [segment]
    · obtain ⟨tw, htw⟩ := Inv_renders h hinv w ew hew
      have hp := hpre a "" (Nat.le_refl a)
      rw [hwr, htw a "" (by omega), String.empty_append, String.empty_append] at hp
      have hp2 : tw = pre := Except.ok.inj hp
      subst hp2
      obtain ⟨s2, es, fs, rest, hs2, hes, hfs, htweq⟩ := ih w hlt ew tw hew htw
      rw [hsrc] at hs2
      cases hs2
      refine ⟨s, es, fs, rest ++ segment (decide (e.wrapper = none)) f e.Message e.Metadata,
        hs, hes, hfs, ?_⟩
      rw [hteq, htweq, String.append_assoc]

/-- The node `Wrap` allocates for a chain node, field by field. -/
theorem Wrap_chain_eq (h : Heap) (stack : List Frame) (n : Nat) (en : Error) (m : String)
    (md : List Any) (hn : h[n]? = some en) :
    ∃ ew : Error, Wrap h stack (asError (some n)) m md
        = Except.ok (some h.length, h ++ [ew]) ∧
      ew.frame = some (errorFrame (wrapFrame :: stack)) ∧ ew.Message = m ∧
      ew.Metadata = md ∧ ew.source = en.source ∧ ew.wrapper = some n ∧ ew.Code = 0 := by
  refine ⟨{ Code := 0, Message := m, Metadata := md,
            frame := some (errorFrame (wrapFrame :: stack)),
            source := en.source, wrapper := some n }, ?_, rfl, rfl, rfl, rfl, rfl, rfl⟩
  simp only [Wrap, asError, hn]
  rfl

/-- The node `New` allocates for a foreign cause, field by field. -/
theorem New_foreign_eq (h : Heap) (stack : List Frame) (t : String) (k : Int)
    (md : List Any) :
    ∃ er : Error, New h stack (ErrorValue.foreign t) k md
        = Except.ok (some h.length, h ++ [er]) ∧
      er.frame = some (errorFrame (newFrame :: stack)) ∧ er.Message = t ∧
      er.Metadata = md ∧ er.source = some h.length ∧ er.wrapper = none ∧ er.Code = k := by
  refine ⟨{ Code := k, Message := t, Metadata := md,
            frame := some (errorFrame (newFrame :: stack)),
            source := some h.length, wrapper := none }, ?_, rfl, rfl, rfl, rfl, rfl, rfl⟩
  simp only [New, errorText]
  rfl

/-- C8: for a node `n` of a reachable heap, `n` renders to some text `s`, and the node
`Wrap(n, m, md...)` renders to `s` followed by the new node's own segment (its primary line,
then its metadata line when `md` is not empty); so the rendering of `n` is a prefix of the
rendering of the node that wraps it, and both start with the primary line of the source
node. -/
theorem render_Wrap_appends (h : Heap) (stack : List Frame) (n : Nat) (m : String)
    (md : List Any) (hr : Reachable h) (hn : n < h.length) :
    ∃ s, Error.Error h (some n) = Except.ok s ∧
      renderOf (Wrap h stack (asError (some n)) m md)
        = Except.ok (s ++ (errorLine false (errorFrame (wrapFrame :: stack)) m
            ++ (if md.length > 0 then metaLine md else ""))) ∧
      ∃ (en : Error) (src : Nat) (es : Error) (fs : Frame) (rest : String),
        h[n]? = some en ∧ en.source = some src ∧ h[src]? = some es ∧ es.frame = some fs ∧
        s = errorLine true fs es.Message ++ rest := by
  have hinv := Reachable_Inv h hr
  obtain ⟨en, hen⟩ : ∃ en, h[n]? = some en := ⟨h[n], List.getElem?_eq_getElem hn⟩
  obtain ⟨s, hs⟩ := Inv_renders h hinv n en hen
  have hrn : Error.Error h (some n) = Except.ok s := by
    have := hs h.length "" (by omega)
    rw [String.empty_append] at this
    exact this
  obtain ⟨src, es, fs, rest, hsrc, hes, hfs, hseq⟩ := Inv_source_first h hinv n en s hen hs
  refine ⟨s, hrn, ?_, en, src, es, fs, rest, hen, hsrc, hes, hfs, hseq⟩
  obtain ⟨ew, hW, hfr, hmsg, hmeta, _, hwr, _⟩ := Wrap_chain_eq h stack n en m md hen
  have hinv2 := Reachable_Inv _ (Reachable.wrap hr hW)
  have hnew : (h ++ [ew])[h.length]? = some ew := by simp
  obtain ⟨f, pre, hf, hpre, hrender⟩ := Inv_render_node _ hinv2 h.length ew hnew
  have hfeq : f = errorFrame (wrapFrame :: stack) := by
    rw [hfr] at hf
    cases hf
    rfl
  have hpre_s : pre = s := by
    have h1 := hpre h.length "" (by omega)
    have h2 := printStack_append h [ew] h.length (some n) "" s hrn
    rw [String.empty_append, hwr, h2] at h1
    cases h1
    rfl
  have hfinal := hrender (h.length + 1) "" (by omega)
  rw [hW]
  simp only [renderOf, Error.Error, List.length_append, List.length_singleton]
  rw [hfinal, String.empty_append, hpre_s, hfeq, hmsg, hmeta, hwr]
  simp [segment]

/-- The heap `heap1` is what `New` leaves when called on the empty heap. -/
theorem heap1_reachable : Reachable heap1 :=
  Reachable.new Reachable.empty
    (rfl : New [] [mainFrame] (ErrorValue.foreign "disk full") 5 [] = Except.ok (some 0, heap1))

/-- Witness for C8: wrapping the root of `heap1`. -/
theorem render_Wrap_appends_witness :
    Reachable heap1 ∧ 0 < heap1.length ∧
    ∃ s, Error.Error heap1 (some 0) = Except.ok s ∧
      renderOf (Wrap heap1 [saveFrame] (asError (some 0)) "failed to save file"
          [Any.str "path", Any.str "/tmp/x"])
        = Except.ok (s ++ (errorLine false (errorFrame (wrapFrame :: [saveFrame]))
              "failed to save file"
            ++ (if [Any.str "path", Any.str "/tmp/x"].length > 0
                then metaLine [Any.str "path", Any.str "/tmp/x"] else ""))) ∧
      ∃ (en : Error) (src : Nat) (es : Error) (fs : Frame) (rest : String),
        heap1[0]? = some en ∧ en.source = some src ∧ heap1[src]? = some es ∧
        es.frame = some fs ∧ s = errorLine true fs es.Message ++ rest :=
  ⟨heap1_reachable, by decide,
    render_Wrap_appends heap1 [saveFrame] 0 "failed to save file"
      [Any.str "path", Any.str "/tmp/x"] heap1_reachable (by decide)⟩

/-- The text a chain of wraps adds to the rendering of the node it starts from. -/
theorem wrapAll_render (cs : List WrapCall) :
    ∀ (h : Heap) (a : Nat) (e : Error) (s d : Nat) (t : String),
      h[a]? = some e → e.source = some s → s < h.length → Renders h a d t → d ≤ h.length →
      renderOf (wrapAll h (some a) cs)
        = Except.ok (t ++ concat (cs.map (fun c =>
            segment false (errorFrame (wrapFrame :: c.stack)) c.message c.metadata))) := by
  induction cs with
  | nil =>
    intro h a e s d t _ _ _ ht hd
    have := ht h.length "" hd
    simpa [wrapAll, renderOf, Error.Error, concat] using this
  | cons c cs ih =>
    intro h a e s d t ha hs hslt ht hd
    obtain ⟨ew, hW, hfr, hmsg, hmeta, hsrc, hwr, _⟩ :=
      Wrap_chain_eq h c.stack a e c.message c.metadata ha
    have hnew : (h ++ [ew])[h.length]? = some ew := by simp
    have hne : s ≠ h.length := by omega
    have hrend : Renders (h ++ [ew]) h.length (d + 1)
        (t ++ segment false (errorFrame (wrapFrame :: c.stack)) c.message c.metadata) := by
      intro fuel b hfuel
      obtain ⟨k, rfl⟩ : ∃ k, fuel = k + 1 := ⟨fuel - 1, by omega⟩
      have hw : printStack (h ++ [ew]) k ew.wrapper b = Except.ok (b ++ t) := by
        rw [hwr]
        exact printStack_append h [ew] k (some a) b _ (ht k b (by omega))
      rw [printStack_step (h ++ [ew]) k h.length ew _ b (b ++ t) hnew hfr hw,
        hsrc, hs, hmsg, hmeta, String.append_assoc]
      have hb : (some s == some h.length) = false := by simp [hne]
      rw [hb]
    have hstep := ih (h ++ [ew]) h.length ew s (d + 1) _ hnew (hsrc.trans hs)
      (by simp; omega) hrend (by simp; omega)
    simp only [wrapAll, hW]
    rw [hstep]
    simp [concat, String.append_assoc]

/-- C9: a chain built by `New` on a foreign cause and then `N` calls of `Wrap`, each on the
result of the one before, renders to the concatenation of exactly `N + 1` segments, one per
node: the segment of the source node first, then those of the wraps in the order of the
calls; each segment starts with the primary line of its node. -/
theorem render_buildChain (h : Heap) (stack : List Frame) (t : String) (code : Int)
    (md : List Any) (cs : List WrapCall) :
    renderOf (buildChain h stack t code md cs)
        = Except.ok (concat (chainSegments stack t md cs)) ∧
    (chainSegments stack t md cs).length = cs.length + 1 ∧
    (chainSegments stack t md cs)[0]?
        = some (errorLine true (errorFrame (newFrame :: stack)) t
            ++ (if md.length > 0 then metaLine md else "")) ∧
    (∀ (i : Nat) (c : WrapCall), cs[i]? = some c →
      (chainSegments stack t md cs)[i + 1]?
        = some (errorLine false (errorFrame (wrapFrame :: c.stack)) c.message
            ++ (if c.metadata.length > 0 then metaLine c.metadata else ""))) := by
  refine ⟨?_, by simp [chainSegments], by simp [chainSegments, segment], ?_⟩
  · obtain ⟨er, hN, hfr, hmsg, hmeta, hsrc, hwr, _⟩ := New_foreign_eq h stack t code md
    have hnew : (h ++ [er])[h.length]? = some er := by simp
    have hrend : Renders (h ++ [er]) h.length 1
        (segment true (errorFrame (newFrame :: stack)) t md) := by
      intro fuel b hfuel
      obtain ⟨k, rfl⟩ : ∃ k, fuel = k + 1 := ⟨fuel - 1, by omega⟩
      have hw : printStack (h ++ [er]) k er.wrapper b = Except.ok b := by
        rw [hwr, printStack_none]
      rw [printStack_step (h ++ [er]) k h.length er _ b b hnew hfr hw, hsrc, hmsg, hmeta]
      simp
    have := wrapAll_render cs (h ++ [er]) h.length er h.length 1 _ hnew hsrc
      (by simp) hrend (by simp)
    simp only [buildChain, hN]
    rw [this]
    simp [chainSegments, concat]
  · intro i c hc
    simp [chainSegments, segment, hc]

/-- C10: in a reachable heap a node has a frame `f` of its own, its wrapper renders to a
text `pre`, and the node renders to `pre`, then the line
`<f.File>:<f.Line>: <f.Function> | <Message>` and a newline (followed by a tab unless the
node has no wrapper), then the metadata line if there is metadata. -/
theorem render_primary_line (h : Heap) (a : Nat) (e : Error) (hr : Reachable h)
    (ha : h[a]? = some e) :
    ∃ (f : Frame) (pre : String), e.frame = some f ∧
      Error.Error h e.wrapper = Except.ok pre ∧
      Error.Error h (some a) = Except.ok (pre ++
        (f.File ++ ":" ++ toString f.Line ++ ": " ++ f.Function ++ " | " ++ e.Message ++ "\n")
        ++ (if e.wrapper = none then "" else "\t")
        ++ (if e.Metadata.length > 0 then metaLine e.Metadata else "")) := by
  have hinv := Reachable_Inv h hr
  have hlt := lt_length_of_getElem? h a e ha
  obtain ⟨f, pre, hf, hpre, hrender⟩ := Inv_render_node h hinv a e ha
  refine ⟨f, pre, hf, ?_, ?_⟩
  · have := hpre h.length "" (by omega)
    rw [String.empty_append] at this
    exact this
  · have := hrender h.length "" (by omega)
    rw [String.empty_append] at this
    rw [Error.Error, this, segment, errorLine_eq]
    by_cases hwr : e.wrapper = none
    · simp [hwr, String.append_assoc]
    · simp [hwr, String.append_assoc]

/-- Witness for C10: the root of `heap1`. -/
theorem render_primary_line_witness :
    Reachable heap1 ∧ heap1[0]? = some (heap1.get ⟨0, by decide⟩) ∧
    ∃ (f : Frame) (pre : String), (heap1.get ⟨0, by decide⟩).frame = some f ∧
      Error.Error heap1 (heap1.get ⟨0, by decide⟩).wrapper = Except.ok pre ∧
      Error.Error heap1 (some 0) = Except.ok (pre ++
        (f.File ++ ":" ++ toString f.Line ++ ": " ++ f.Function ++ " | "
          ++ (heap1.get ⟨0, by decide⟩).Message ++ "\n")
        ++ (if (heap1.get ⟨0, by decide⟩).wrapper = none then "" else "\t")
        ++ (if (heap1.get ⟨0, by decide⟩).Metadata.length > 0
            then metaLine (heap1.get ⟨0, by decide⟩).Metadata else "")) :=
  ⟨heap1_reachable, rfl,
    render_primary_line heap1 0 (heap1.get ⟨0, by decide⟩) heap1_reachable rfl⟩

/-! ## Line ends and metadata lines -/

/-- The heap `heap2` is what `Wrap` leaves when called on the root of `heap1`. -/
theorem heap2_reachable : Reachable heap2 :=
  Reachable.wrap heap1_reachable
    (rfl : Wrap heap1 [saveFrame] (asError (some 0)) "failed to save file"
      [Any.str "path", Any.str "/tmp/x"] = Except.ok (some 1, heap2))

/-- In a heap with the invariant, `Error()` on a node returns the rendering of its wrapper
followed by the node's own segment. -/
theorem Inv_Error_node (h : Heap) (hinv : Inv h) (a : Nat) (e : Error)
    (ha : h[a]? = some e) :
    ∃ (f : Frame) (pre : String), e.frame = some f ∧
      Error.Error h e.wrapper = Except.ok pre ∧
      (e.wrapper = none → pre = "") ∧
      Error.Error h (some a)
        = Except.ok (pre ++ segment (decide (e.wrapper = none)) f e.Message e.Metadata) := by
  have hlt := lt_length_of_getElem? h a e ha
  obtain ⟨f, pre, hf, hpre, hrender⟩ := Inv_render_node h hinv a e ha
  have h1 := hpre h.length "" (by omega)
  rw [String.empty_append] at h1
  have h2 := hrender h.length "" (by omega)
  rw [String.empty_append] at h2
  refine ⟨f, pre, hf, h1, ?_, h2⟩
  intro hwr
  rw [hwr, printStack_none] at h1
  exact (Except.ok.inj h1).symm

theorem Inv_source_iff (h : Heap) (hinv : Inv h) (a : Nat) (e : Error)
    (ha : h[a]? = some e) : e.source = some a ↔ e.wrapper = none := by
  have := Inv_isSource h hinv a e ha
  constructor
  · intro hs
    rw [hs] at this
    simpa using this.symm
  · intro hw
    rw [hw] at this
    simpa using this

/-- C11: in the rendering of a node of a reachable heap, the primary line of a node that
is not the source node ends with a newline and a tab; the primary line of the source node
ends with the newline alone and nothing is written before it; when the source node has
metadata, the tab comes after its metadata line. -/
theorem render_indentation (h : Heap) (a : Nat) (e : Error) (hr : Reachable h)
    (ha : h[a]? = some e) :
    ∃ (f : Frame) (pre : String), e.frame = some f ∧
      Error.Error h e.wrapper = Except.ok pre ∧
      (e.source ≠ some a →
        Error.Error h (some a) = Except.ok (pre ++ (primaryText f e.Message ++ "\n\t")
          ++ (if e.Metadata.length > 0 then fmtSlice e.Metadata ++ "\n\t" else ""))) ∧
      (e.source = some a →
        (e.Metadata = [] →
          Error.Error h (some a) = Except.ok (primaryText f e.Message ++ "\n")) ∧
        (e.Metadata ≠ [] →
          Error.Error h (some a) = Except.ok (primaryText f e.Message ++ "\n"
            ++ (fmtSlice e.Metadata ++ "\n\t")))) := by
  have hinv := Reachable_Inv h hr
  obtain ⟨f, pre, hf, hpre, hnone, hrender⟩ := Inv_Error_node h hinv a e ha
  have hiff := Inv_source_iff h hinv a e ha
  refine ⟨f, pre, hf, hpre, ?_, ?_⟩
  · intro hsrc
    have hwr : ¬ e.wrapper = none := fun hw => hsrc (hiff.mpr hw)
    rw [hrender]
    simp [segment, errorLine, primaryText, metaLine, hwr, String.append_assoc]
  · intro hsrc
    have hwr : e.wrapper = none := hiff.mp hsrc
    have hp := hnone hwr
    subst hp
    rw [hrender]
    constructor
    · intro hmd
      simp [segment, errorLine, primaryText, hwr, hmd]
    · intro hmd
      have hlen : e.Metadata.length > 0 := List.length_pos.mpr hmd
      simp [segment, errorLine, primaryText, metaLine, hwr, hlen, String.append_assoc]

/-- Witness for C11: the wrapping node of `heap2`. -/
theorem render_indentation_witness :
    Reachable heap2 ∧ heap2[1]? = some (heap2.get ⟨1, by decide⟩) ∧
    ∃ (f : Frame) (pre : String), (heap2.get ⟨1, by decide⟩).frame = some f ∧
      Error.Error heap2 (heap2.get ⟨1, by decide⟩).wrapper = Except.ok pre ∧
      ((heap2.get ⟨1, by decide⟩).source ≠ some 1 →
        Error.Error heap2 (some 1) = Except.ok (pre
          ++ (primaryText f (heap2.get ⟨1, by decide⟩).Message ++ "\n\t")
          ++ (if (heap2.get ⟨1, by decide⟩).Metadata.length > 0
              then fmtSlice (heap2.get ⟨1, by decide⟩).Metadata ++ "\n\t" else ""))) ∧
      ((heap2.get ⟨1, by decide⟩).source = some 1 →
        ((heap2.get ⟨1, by decide⟩).Metadata = [] →
          Error.Error heap2 (some 1)
            = Except.ok (primaryText f (heap2.get ⟨1, by decide⟩).Message ++ "\n")) ∧
        ((heap2.get ⟨1, by decide⟩).Metadata ≠ [] →
          Error.Error heap2 (some 1)
            = Except.ok (primaryText f (heap2.get ⟨1, by decide⟩).Message ++ "\n"
              ++ (fmtSlice (heap2.get ⟨1, by decide⟩).Metadata ++ "\n\t")))) :=
  ⟨heap2_reachable, rfl,
    render_indentation heap2 1 (heap2.get ⟨1, by decide⟩) heap2_reachable rfl⟩

/-- C12: a node of a reachable heap that has metadata renders, right after its primary
line, the text of the whole metadata slice followed by a newline and a tab, and that ends
its segment; a node without metadata renders nothing after its primary line; the primary
line of a node that wraps it follows directly. -/
theorem render_metadata_line (h : Heap) (a : Nat) (e : Error) (hr : Reachable h)
    (ha : h[a]? = some e) :
    ∃ (f : Frame) (pre : String), e.frame = some f ∧
      Error.Error h e.wrapper = Except.ok pre ∧
      (e.Metadata ≠ [] →
        Error.Error h (some a) = Except.ok (pre ++ errorLine (e.source == some a) f e.Message
          ++ (fmtSlice e.Metadata ++ "\n\t"))) ∧
      (e.Metadata = [] →
        Error.Error h (some a)
          = Except.ok (pre ++ errorLine (e.source == some a) f e.Message)) ∧
      (∀ (a2 : Nat) (e2 : Error), h[a2]? = some e2 → e2.wrapper = some a →
        ∃ (f2 : Frame) (s rest : String), e2.frame = some f2 ∧
          Error.Error h (some a) = Except.ok s ∧
          Error.Error h (some a2)
            = Except.ok (s ++ errorLine (e2.source == some a2) f2 e2.Message ++ rest)) := by
  have hinv := Reachable_Inv h hr
  obtain ⟨f, pre, hf, hpre, _, hrender⟩ := Inv_Error_node h hinv a e ha
  have hsrc := Inv_isSource h hinv a e ha
  refine ⟨f, pre, hf, hpre, ?_, ?_, ?_⟩
  · intro hmd
    have hlen : e.Metadata.length > 0 := List.length_pos.mpr hmd
    rw [hrender, hsrc]
    simp [segment, metaLine, hlen, String.append_assoc]
  · intro hmd
    rw [hrender, hsrc]
    simp [segment, hmd]
  · intro a2 e2 ha2 hw2
    obtain ⟨f2, pre2, hf2, hpre2, _, hrender2⟩ := Inv_Error_node h hinv a2 e2 ha2
    have hsrc2 := Inv_isSource h hinv a2 e2 ha2
    rw [hw2] at hpre2
    refine ⟨f2, pre2, if e2.Metadata.length > 0 then metaLine e2.Metadata else "", hf2,
      hpre2, ?_⟩
    rw [hrender2, hsrc2]
    simp [segment, String.append_assoc]

/-- Witness for C12: the root of `heap2`, which the node at address 1 wraps. -/
theorem render_metadata_line_witness :
    Reachable heap2 ∧ heap2[0]? = some (heap2.get ⟨0, by decide⟩) ∧
    ∃ (f : Frame) (pre : String), (heap2.get ⟨0, by decide⟩).frame = some f ∧
      Error.Error heap2 (heap2.get ⟨0, by decide⟩).wrapper = Except.ok pre ∧
      ((heap2.get ⟨0, by decide⟩).Metadata ≠ [] →
        Error.Error heap2 (some 0) = Except.ok (pre
          ++ errorLine ((heap2.get ⟨0, by decide⟩).source == some 0) f
              (heap2.get ⟨0, by decide⟩).Message
          ++ (fmtSlice (heap2.get ⟨0, by decide⟩).Metadata ++ "\n\t"))) ∧
      ((heap2.get ⟨0, by decide⟩).Metadata = [] →
        Error.Error heap2 (some 0)
          = Except.ok (pre ++ errorLine ((heap2.get ⟨0, by decide⟩).source == some 0) f
              (heap2.get ⟨0, by decide⟩).Message)) ∧
      (∀ (a2 : Nat) (e2 : Error), heap2[a2]? = some e2 → e2.wrapper = some 0 →
        ∃ (f2 : Frame) (s rest : String), e2.frame = some f2 ∧
          Error.Error heap2 (some 0) = Except.ok s ∧
          Error.Error heap2 (some a2)
            = Except.ok (s ++ errorLine (e2.source == some a2) f2 e2.Message ++ rest)) :=
  ⟨heap2_reachable, rfl,
    render_metadata_line heap2 0 (heap2.get ⟨0, by decide⟩) heap2_reachable rfl⟩

/-! ## The end-to-end scenario -/

/-- The rendering of a chain built by `buildChain`, as a shared lemma. -/
theorem buildChain_render (h : Heap) (stack : List Frame) (t : String) (code : Int)
    (md : List Any) (cs : List WrapCall) :
    renderOf (buildChain h stack t code md cs)
        = Except.ok (concat (chainSegments stack t md cs)) := by
  obtain ⟨er, hN, hfr, hmsg, hmeta, hsrc, hwr, _⟩ := New_foreign_eq h stack t code md
  have hnew : (h ++ [er])[h.length]? = some er := by simp
  have hrend : Renders (h ++ [er]) h.length 1
      (segment true (errorFrame (newFrame :: stack)) t md) := by
    intro fuel b hfuel
    obtain ⟨k, rfl⟩ : ∃ k, fuel = k + 1 := ⟨fuel - 1, by omega⟩
    have hw : printStack (h ++ [er]) k er.wrapper b = Except.ok b := by
      rw [hwr, printStack_none]
    rw [printStack_step (h ++ [er]) k h.length er _ b b hnew hfr hw, hsrc, hmsg, hmeta]
    simp
  have := wrapAll_render cs (h ++ [er]) h.length er h.length 1 _ hnew hsrc
    (by simp) hrend (by simp)
  simp only [buildChain, hN]
  rw [this]
  simp [chainSegments, concat]

/-- C13 (as stated, refuted): with `r := New(<"disk full">, 5)` called from `mainFrame` and
`w := Wrap(r, "failed to save file", "path", "/tmp/x")` called from `saveFrame`, the two
metadata values belong to `w`, not to `r`: the rendering of `w` is the primary line of `r`,
the primary line of `w`, and then the metadata line of `w`; it is not the layout with the
metadata line between the two primary lines. -/
theorem scenario_layout_differs :
    buildChain [] [mainFrame] "disk full" 5 []
        [{ stack := [saveFrame], message := "failed to save file",
           metadata := [Any.str "path", Any.str "/tmp/x"] }]
      = Except.ok (some 1, heap2) ∧
    (heap2.get ⟨0, by decide⟩).Metadata = [] ∧
    (heap2.get ⟨1, by decide⟩).Metadata = [Any.str "path", Any.str "/tmp/x"] ∧
    Error.Error heap2 (some 1) = Except.ok
      "main.go:10: main.main | disk full\nstore.go:42: main.save | failed to save file\n\t[path /tmp/x]\n\t" ∧
    Error.Error heap2 (some 1) ≠ Except.ok
      (errorLine true mainFrame "disk full" ++ metaLine [Any.str "path", Any.str "/tmp/x"]
        ++ errorLine false saveFrame "failed to save file") := by
  refine ⟨rfl, rfl, rfl, rfl, ?_⟩
  have hr : Error.Error heap2 (some 1) = Except.ok
      "main.go:10: main.main | disk full\nstore.go:42: main.save | failed to save file\n\t[path /tmp/x]\n\t" := rfl
  rw [hr]
  intro hc
  have := Except.ok.inj hc
  revert this
  decide

/-- C13 (amended): for `r := New(<"disk full">, 5)` and
`w := Wrap(r, "failed to save file", "path", "/tmp/x")`, the rendering of `w` is the primary
line of `r` alone (`r` has no metadata), then the layer of `w`: its primary line ending in a
newline and a tab, then its metadata line `[path /tmp/x]`; the primary lines have the form
`<file>:<line>: <func> | <message>`. -/
theorem scenario_render (h : Heap) (stack stack2 : List Frame) :
    renderOf (buildChain h stack "disk full" 5 []
        [{ stack := stack2, message := "failed to save file",
           metadata := [Any.str "path", Any.str "/tmp/x"] }])
      = Except.ok (primaryText (errorFrame (newFrame :: stack)) "disk full" ++ "\n"
          ++ (primaryText (errorFrame (wrapFrame :: stack2)) "failed to save file" ++ "\n\t")
          ++ "[path /tmp/x]\n\t") := by
  rw [buildChain_render]
  have hm : metaLine [Any.str "path", Any.str "/tmp/x"] = "[path /tmp/x]\n\t" := by decide
  simp [chainSegments, concat, segment, errorLine, primaryText, hm, String.append_assoc]

/-! ## Absent nodes, termination -/

theorem errorLine_ne_empty (isSource : Bool) (f : Frame) (message : String) :
    0 < (errorLine isSource f message).length := by
  have h1 : (":" : String).length = 1 := rfl
  simp only [errorLine, String.length_append, h1]
  omega

theorem occursIn_mid (a b c : String) : occursIn b (a ++ b ++ c) := by
  simp only [occursIn, String.toList, String.data_append]
  exact ⟨a.data, c.data, rfl⟩

/-- C14: rendering the nil pointer gives the empty text; a node of a reachable heap (a
source node without wrapper and without metadata included) renders to a text that is not
empty and contains the node's own primary line. -/
theorem render_empty_only_nil (h : Heap) (a : Nat) (e : Error) (hr : Reachable h)
    (ha : h[a]? = some e) :
    Error.Error h none = Except.ok "" ∧
    ∃ (f : Frame) (s : String), e.frame = some f ∧
      Error.Error h (some a) = Except.ok s ∧ s ≠ "" ∧
      occursIn (errorLine (e.source == some a) f e.Message) s := by
  have hinv := Reachable_Inv h hr
  obtain ⟨f, pre, hf, _, _, hrender⟩ := Inv_Error_node h hinv a e ha
  have hsrc := Inv_isSource h hinv a e ha
  refine ⟨printStack_none h h.length "", f, _, hf, hrender, ?_, ?_⟩
  · intro hc
    have hlen := congrArg String.length hc
    have hpos := errorLine_ne_empty (decide (e.wrapper = none)) f e.Message
    simp only [segment, String.length_append] at hlen
    have h0 : ("" : String).length = 0 := rfl
    omega
  · rw [hsrc, segment, ← String.append_assoc]
    exact occursIn_mid _ _ _

/-- Witness for C14: the root of `heap1`, a source node without wrapper and metadata. -/
theorem render_empty_only_nil_witness :
    Reachable heap1 ∧ heap1[0]? = some (heap1.get ⟨0, by decide⟩) ∧
    Error.Error heap1 none = Except.ok "" ∧
    ∃ (f : Frame) (s : String), (heap1.get ⟨0, by decide⟩).frame = some f ∧
      Error.Error heap1 (some 0) = Except.ok s ∧ s ≠ "" ∧
      occursIn (errorLine ((heap1.get ⟨0, by decide⟩).source == some 0) f
        (heap1.get ⟨0, by decide⟩).Message) s :=
  ⟨heap1_reachable, rfl,
    render_empty_only_nil heap1 0 (heap1.get ⟨0, by decide⟩) heap1_reachable rfl⟩

/-! ## Call-site capture -/

theorem errorFrame_skip (lib caller : Frame) (rest : List Frame) :
    errorFrame (lib :: caller :: rest) = caller := by
  simp [errorFrame, callers]

/-- C15 (the code on its three creation paths): called from a stack whose innermost frame
is `caller`, `New` stores `caller`, and `Wrap` on a chain node stores `caller`; `Wrap` on a
foreign cause calls `New`, so the third frame counted from `runtime.Callers` is the frame of
`Wrap` itself (line 73), and that library frame is stored instead of `caller`. -/
theorem Wrap_foreign_captures_library_frame (h : Heap) (caller : Frame) (rest : List Frame)
    (t m : String) (k : Int) (md : List Any) :
    (∃ er : Error, New h (caller :: rest) (ErrorValue.foreign t) k md
        = Except.ok (some h.length, h ++ [er]) ∧ er.frame = some caller) ∧
    (∀ (n : Nat) (en : Error), h[n]? = some en →
      ∃ ew : Error, Wrap h (caller :: rest) (asError (some n)) m md
        = Except.ok (some h.length, h ++ [ew]) ∧ ew.frame = some caller) ∧
    (∃ er : Error, Wrap h (caller :: rest) (ErrorValue.foreign t) m md
        = Except.ok (some h.length, h ++ [er]) ∧ er.frame = some wrapNewFrame ∧
        wrapNewFrame ∈ libraryFrames ∧ wrapNewFrame.Function = "errs.Wrap") := by
  refine ⟨?_, ?_, ?_⟩
  · obtain ⟨er, hN, hfr, _⟩ := New_foreign_eq h (caller :: rest) t k md
    exact ⟨er, hN, by rw [hfr, errorFrame_skip]⟩
  · intro n en hn
    obtain ⟨ew, hW, hfr, _⟩ := Wrap_chain_eq h (caller :: rest) n en m md hn
    exact ⟨ew, hW, by rw [hfr, errorFrame_skip]⟩
  · obtain ⟨er, hN, hfr, _⟩ := New_foreign_eq h (wrapNewFrame :: caller :: rest) t 0 md
    have hW : Wrap h (caller :: rest) (ErrorValue.foreign t) m md
        = New h (wrapNewFrame :: caller :: rest) (ErrorValue.foreign t) 0 md := by
      simp [Wrap]
    refine ⟨er, hW.trans hN, by rw [hfr, errorFrame_skip], ?_, rfl⟩
    simp [libraryFrames]

/-! ## The chain of a node -/

theorem concat_append (l1 l2 : List String) : concat (l1 ++ l2) = concat l1 ++ concat l2 := by
  induction l1 with
  | nil => simp [concat]
  | cons x xs ih => simp [concat, ih, String.append_assoc]

theorem nodeSegment_eq (h : Heap) (a : Nat) (e : Error) (f : Frame) (ha : h[a]? = some e)
    (hf : e.frame = some f) :
    nodeSegment h a = segment (e.source == some a) f e.Message e.Metadata := by
  simp [nodeSegment, ha, hf]

/-- In a heap with the invariant, the wrapper links from a node run through strictly
older nodes that all have the node's source, and end at that source; the rendering of the
node is the concatenation of the segments of these nodes, the source first. -/
theorem Inv_chain (h : Heap) (hinv : Inv h) :
    ∀ (a : Nat) (e : Error), h[a]? = some e →
      ∃ (s : Nat) (path rest : List Nat), e.source = some s ∧
        (∀ fuel, a + 1 ≤ fuel → chainOf h fuel a = some path) ∧
        path.head? = some a ∧ path.reverse = s :: rest ∧
        List.Pairwise (fun x y => x > y) path ∧ (∀ x ∈ path, x ≤ a) ∧
        (∀ x ∈ path, ∃ ex, h[x]? = some ex ∧ ex.source = some s ∧
          (ex.wrapper = none ↔ x = s)) ∧
        Renders h a (a + 1) (concat (path.reverse.map (nodeSegment h))) := by
  intro a
  induction a using Nat.strong_induction_on with
  | _ a ih =>
    intro e ha
    obtain ⟨⟨f, hf⟩, s, hs, hcase⟩ := hinv a e ha
    rcases hcase with ⟨hwr, hsa⟩ | ⟨w, ew, hwr, hlt, hle, hew, hsrc⟩
    · subst hsa
      refine ⟨s, [s], [], hs, ?_, rfl, rfl, List.pairwise_singleton _ _, ?_, ?_, ?_⟩
      · intro fuel hfuel
        obtain ⟨k, rfl⟩ : ∃ k, fuel = k + 1 := ⟨fuel - 1, by omega⟩
        simp [chainOf, ha, hwr]
      · intro x hx
        simp at hx
        omega
      · intro x hx
        simp at hx
        subst hx
        exact ⟨e, ha, hs, by simp [hwr]⟩
      · intro fuel b hfuel
        obtain ⟨k, rfl⟩ : ∃ k, fuel = k + 1 := ⟨fuel - 1, by omega⟩
        have hw : printStack h k e.wrapper b = Except.ok b := by
          rw [hwr, printStack_none]
        rw [printStack_step h k s e f b b ha hf hw]
        simp [concat, nodeSegment_eq h s e f ha hf]
    · obtain ⟨s2, pathw, restw, hs2, hchain, hhead, hrev, hpair, hbound, hnodes, hrend⟩ :=
        ih w hlt ew hew
      rw [hsrc] at hs2
      cases hs2
      refine ⟨s, a :: pathw, restw ++ [a], hs, ?_, rfl, ?_, ?_, ?_, ?_, ?_⟩
      · intro fuel hfuel
        obtain ⟨k, rfl⟩ : ∃ k, fuel = k + 1 := ⟨fuel - 1, by omega⟩
        simp [chainOf, ha, hwr, hchain k (by omega)]
      · rw [List.reverse_cons, hrev]
        rfl
      · rw [List.pairwise_cons]
        refine ⟨?_, hpair⟩
        intro x hx
        have := hbound x hx
        omega
      · intro x hx
        rcases List.mem_cons.mp hx with hxa | hxw
        · omega
        · have := hbound x hxw
          omega
      · intro x hx
        rcases List.mem_cons.mp hx with hxa | hxw
        · subst hxa
          refine ⟨e, ha, hs, ?_⟩
          constructor
          · intro hnone
            rw [hwr] at hnone
            cases hnone
          · intro hxs
            omega
        · exact hnodes x hxw
      · intro fuel b hfuel
        obtain ⟨k, rfl⟩ : ∃ k, fuel = k + 1 := ⟨fuel - 1, by omega⟩
        have hw : printStack h k e.wrapper b
            = Except.ok (b ++ concat (pathw.reverse.map (nodeSegment h))) := by
          rw [hwr]
          exact hrend k b (by omega)
        rw [printStack_step h k a e f b _ ha hf hw]
        simp [concat_append, concat, nodeSegment_eq h a e f ha hf, String.append_assoc]

/-- C16: from a node of a reachable heap, following the wrapper link ends after finitely
many steps, without meeting a node twice, at a node that has no wrapper, and that node is
the source of the node started from; every node on the way has the same source. -/
theorem chain_linear (h : Heap) (a : Nat) (e : Error) (hr : Reachable h)
    (ha : h[a]? = some e) :
    ∃ (s : Nat) (path : List Nat), e.source = some s ∧
      chainOf h h.length a = some path ∧ path.Nodup ∧ path.length ≤ a + 1 ∧
      path.head? = some a ∧ path.getLast? = some s ∧
      (∃ es, h[s]? = some es ∧ es.wrapper = none) ∧
      (∀ x ∈ path, ∃ ex, h[x]? = some ex ∧ ex.source = e.source ∧
        (ex.wrapper = none ↔ x = s)) := by
  have hinv := Reachable_Inv h hr
  have hlt := lt_length_of_getElem? h a e ha
  obtain ⟨s, path, rest, hs, hchain, hhead, hrev, hpair, hbound, hnodes, _⟩ :=
    Inv_chain h hinv a e ha
  have hnodup : path.Nodup := hpair.imp (fun hxy => Nat.ne_of_gt hxy)
  have hlast : path.getLast? = some s := by
    rw [← List.head?_reverse, hrev]
    rfl
  have hsmem : s ∈ path := by
    rw [← List.mem_reverse, hrev]
    exact List.mem_cons_self s rest
  refine ⟨s, path, hs, hchain h.length (by omega), hnodup, ?_, hhead, hlast, ?_, ?_⟩
  · have hsub : path.toFinset ⊆ Finset.range (a + 1) := by
      intro x hx
      rw [List.mem_toFinset] at hx
      rw [Finset.mem_range]
      have := hbound x hx
      omega
    have hcard := Finset.card_le_card hsub
    rw [List.toFinset_card_of_nodup hnodup, Finset.card_range] at hcard
    exact hcard
  · obtain ⟨es, hes, _, hiff⟩ := hnodes s hsmem
    exact ⟨es, hes, hiff.mpr rfl⟩
  · intro x hx
    obtain ⟨ex, hex, hsx, hiff⟩ := hnodes x hx
    exact ⟨ex, hex, hsx.trans hs.symm, hiff⟩

/-- Witness for C16: the wrapping node of `heap2`. -/
theorem chain_linear_witness :
    Reachable heap2 ∧ heap2[1]? = some (heap2.get ⟨1, by decide⟩) ∧
    ∃ (s : Nat) (path : List Nat), (heap2.get ⟨1, by decide⟩).source = some s ∧
      chainOf heap2 heap2.length 1 = some path ∧ path.Nodup ∧ path.length ≤ 1 + 1 ∧
      path.head? = some 1 ∧ path.getLast? = some s ∧
      (∃ es, heap2[s]? = some es ∧ es.wrapper = none) ∧
      (∀ x ∈ path, ∃ ex, heap2[x]? = some ex ∧
        ex.source = (heap2.get ⟨1, by decide⟩).source ∧ (ex.wrapper = none ↔ x = s)) :=
  ⟨heap2_reachable, rfl, chain_linear heap2 1 (heap2.get ⟨1, by decide⟩) heap2_reachable rfl⟩

/-! ## Rendering returns, and does not depend on when it is asked -/

/-- C17: for a node of a reachable heap, the node has a frame, its wrapper (if any) is a
node at a smaller address, so the recursion of `printStack` is well-founded, and `Error()`
returns a text: every recursion depth above the address of the node gives that text. All
nodes of the heap have a frame, so no read of `e.frame` meets nil; on the nil pointer
`Error()` returns the empty text. -/
theorem render_never_fails (h : Heap) (a : Nat) (e : Error) (hr : Reachable h)
    (ha : h[a]? = some e) :
    (∃ f, e.frame = some f) ∧
    (∀ (x : Nat) (ex : Error), h[x]? = some ex → ex.frame ≠ none) ∧
    (∀ (x : Nat) (ex : Error) (w : Nat), h[x]? = some ex → ex.wrapper = some w →
      w < x ∧ ∃ ew, h[w]? = some ew) ∧
    (∃ s, Error.Error h (some a) = Except.ok s ∧
      ∀ (fuel : Nat) (b : String), a + 1 ≤ fuel →
        printStack h fuel (some a) b = Except.ok (b ++ s)) ∧
    Error.Error h none = Except.ok "" := by
  have hinv := Reachable_Inv h hr
  have hlt := lt_length_of_getElem? h a e ha
  refine ⟨(hinv a e ha).1, ?_, ?_, ?_, printStack_none h h.length ""⟩
  · intro x ex hx hnone
    obtain ⟨⟨f, hf⟩, _⟩ := hinv x ex hx
    rw [hf] at hnone
    cases hnone
  · intro x ex w hx hw
    obtain ⟨_, s, _, hcase⟩ := hinv x ex hx
    rcases hcase with ⟨hnone, _⟩ | ⟨w2, ew, hw2, hlt2, _, hew, _⟩
    · rw [hnone] at hw
      cases hw
    · rw [hw2] at hw
      cases hw
      exact ⟨hlt2, ew, hew⟩
  · obtain ⟨s, hs⟩ := Inv_renders h hinv a e ha
    refine ⟨s, ?_, hs⟩
    have := hs h.length "" (by omega)
    rw [String.empty_append] at this
    exact this

/-- Witness for C17: the wrapping node of `heap2`. -/
theorem render_never_fails_witness :
    Reachable heap2 ∧ heap2[1]? = some (heap2.get ⟨1, by decide⟩) ∧
    (∃ f, (heap2.get ⟨1, by decide⟩).frame = some f) ∧
    (∀ (x : Nat) (ex : Error), heap2[x]? = some ex → ex.frame ≠ none) ∧
    (∀ (x : Nat) (ex : Error) (w : Nat), heap2[x]? = some ex → ex.wrapper = some w →
      w < x ∧ ∃ ew, heap2[w]? = some ew) ∧
    (∃ s, Error.Error heap2 (some 1) = Except.ok s ∧
      ∀ (fuel : Nat) (b : String), 1 + 1 ≤ fuel →
        printStack heap2 fuel (some 1) b = Except.ok (b ++ s)) ∧
    Error.Error heap2 none = Except.ok "" :=
  ⟨heap2_reachable, rfl,
    render_never_fails heap2 1 (heap2.get ⟨1, by decide⟩) heap2_reachable rfl⟩

/-- The rendering of the node `Wrap` returns for a chain node, in a heap with the
invariant. -/
theorem Inv_render_Wrap (h : Heap) (hinv : Inv h) (stack : List Frame) (n : Nat)
    (en : Error) (m : String) (md : List Any) (hen : h[n]? = some en) :
    ∃ s, Error.Error h (some n) = Except.ok s ∧
      (∀ x : Heap, Error.Error (h ++ x) (some n) = Except.ok s) ∧
      renderOf (Wrap h stack (asError (some n)) m md)
        = Except.ok (s ++ segment false (errorFrame (wrapFrame :: stack)) m md) := by
  have hlt := lt_length_of_getElem? h n en hen
  obtain ⟨s, hs⟩ := Inv_renders h hinv n en hen
  have hrn : Error.Error h (some n) = Except.ok s := by
    have := hs h.length "" (by omega)
    rw [String.empty_append] at this
    exact this
  have hext : ∀ x : Heap, Error.Error (h ++ x) (some n) = Except.ok s := by
    intro x
    have h1 := hs (h ++ x).length "" (by simp; omega)
    rw [String.empty_append] at h1
    exact printStack_append h x (h ++ x).length (some n) "" s h1
  refine ⟨s, hrn, hext, ?_⟩
  obtain ⟨ew, hW, hfr, hmsg, hmeta, _, hwr, _⟩ := Wrap_chain_eq h stack n en m md hen
  have hinv2 := Inv_Wrap h stack (asError (some n)) m md _ _ hinv hW
  have hnew : (h ++ [ew])[h.length]? = some ew := by simp
  obtain ⟨f, pre, hf, hpre, _, hrender⟩ := Inv_Error_node _ hinv2 h.length ew hnew
  have hfeq : f = errorFrame (wrapFrame :: stack) := by
    rw [hfr] at hf
    cases hf
    rfl
  have hpre_s : pre = s := by
    rw [hwr, hext [ew]] at hpre
    exact (Except.ok.inj hpre).symm
  rw [hW]
  simp only [renderOf]
  rw [hrender, hpre_s, hfeq, hmsg, hmeta, hwr]
  simp

/-- C18: a node of a reachable heap renders to one text `s`: `Error()` is a function of
the heap and the pointer and returns no changed heap, the text is the same for every
sufficient recursion depth and in every heap that later allocations have extended; a call
`Wrap(n, ...)` returns a new node, leaves every node already there as it was, and the
rendering of `n` after the call is still `s`. -/
theorem render_stable (h : Heap) (n : Nat) (hr : Reachable h) (hn : n < h.length) :
    ∃ s, Error.Error h (some n) = Except.ok s ∧
      (∀ (fuel : Nat), n + 1 ≤ fuel → printStack h fuel (some n) "" = Except.ok s) ∧
      (∀ x : Heap, Error.Error (h ++ x) (some n) = Except.ok s) ∧
      (∀ (stack : List Frame) (m : String) (md : List Any),
        ∃ (w : Nat) (h2 : Heap), Wrap h stack (asError (some n)) m md = Except.ok (some w, h2) ∧
          h[w]? = none ∧
          (∀ (a : Nat) (e : Error), h[a]? = some e → h2[a]? = some e) ∧
          Error.Error h2 (some n) = Except.ok s) := by
  have hinv := Reachable_Inv h hr
  obtain ⟨en, hen⟩ : ∃ en, h[n]? = some en := ⟨h[n], List.getElem?_eq_getElem hn⟩
  obtain ⟨s, hrn, hext, _⟩ := Inv_render_Wrap h hinv [] n en "" [] hen
  obtain ⟨s2, hs2⟩ := Inv_renders h hinv n en hen
  have hss : s2 = s := by
    have := hs2 h.length "" (by omega)
    rw [String.empty_append] at this
    rw [Error.Error, this] at hrn
    exact Except.ok.inj hrn
  subst hss
  refine ⟨s2, hrn, ?_, hext, ?_⟩
  · intro fuel hfuel
    have := hs2 fuel "" hfuel
    rw [String.empty_append] at this
    exact this
  · intro stack m md
    obtain ⟨ew, hW, _⟩ := Wrap_chain_eq h stack n en m md hen
    refine ⟨h.length, h ++ [ew], hW, by simp, ?_, hext [ew]⟩
    intro a e ha
    exact getElem?_append_of_some h [ew] a e ha

/-- Witness for C18: the root of `heap1`. -/
theorem render_stable_witness :
    Reachable heap1 ∧ 0 < heap1.length ∧
    ∃ s, Error.Error heap1 (some 0) = Except.ok s ∧
      (∀ (fuel : Nat), 0 + 1 ≤ fuel → printStack heap1 fuel (some 0) "" = Except.ok s) ∧
      (∀ x : Heap, Error.Error (heap1 ++ x) (some 0) = Except.ok s) ∧
      (∀ (stack : List Frame) (m : String) (md : List Any),
        ∃ (w : Nat) (h2 : Heap),
          Wrap heap1 stack (asError (some 0)) m md = Except.ok (some w, h2) ∧
          heap1[w]? = none ∧
          (∀ (a : Nat) (e : Error), heap1[a]? = some e → h2[a]? = some e) ∧
          Error.Error h2 (some 0) = Except.ok s) :=
  ⟨heap1_reachable, by decide, render_stable heap1 0 heap1_reachable (by decide)⟩

/-! ## Frame capture on an empty stack -/

theorem New_foreign_render (h : Heap) (stack : List Frame) (t : String) (k : Int)
    (md : List Any) :
    renderOf (New h stack (ErrorValue.foreign t) k md)
      = Except.ok (segment true (errorFrame (newFrame :: stack)) t md) := by
  by_cases hmd : md.length > 0
  · simp [New, errorText, renderOf, Error.Error, printStack, segment, hmd]
  · simp [New, errorText, renderOf, Error.Error, printStack, segment, hmd]

theorem primaryText_zeroFrame (m : String) : primaryText zeroFrame m = ":0:  | " ++ m := by
  have hp : ("" ++ ":" ++ toString (0 : Int) ++ ": " ++ "" ++ " | " : String) = ":0:  | " := by
    decide
  show "" ++ ":" ++ toString (0 : Int) ++ ": " ++ "" ++ " | " ++ m = ":0:  | " ++ m
  rw [hp]

theorem errorLine_primaryText (isSource : Bool) (f : Frame) (m : String) :
    errorLine isSource f m = primaryText f m ++ (if isSource then "\n" else "\n\t") := rfl

/-- C19: when the stack holds no frame at the skip depth of `errorFrame`, `errorFrame`
returns the zero frame (empty file, line 0, empty function); `New` on a foreign cause and
`Wrap` on a chain node still return a node, which stores that frame, and the primary line
of the node renders as `:0:  | <message>`. -/
theorem frame_capture_failure (h : Heap) (stack : List Frame) (t m : String) (k : Int)
    (md : List Any) (n : Nat) (hr : Reachable h) (hn : n < h.length)
    (hs : ∀ lib : Frame, callers 3 64 (errorFrameFrame :: lib :: stack) = []) :
    (∀ lib : Frame, errorFrame (lib :: stack) = zeroFrame) ∧
    zeroFrame.File = "" ∧ zeroFrame.Line = 0 ∧ zeroFrame.Function = "" ∧
    (∃ er : Error, New h stack (ErrorValue.foreign t) k md
        = Except.ok (some h.length, h ++ [er]) ∧ er.frame = some zeroFrame ∧
      renderOf (New h stack (ErrorValue.foreign t) k md)
        = Except.ok (":0:  | " ++ t ++ "\n" ++ (if md.length > 0 then metaLine md else ""))) ∧
    (∃ (ew : Error) (pre : String), Wrap h stack (asError (some n)) m md
        = Except.ok (some h.length, h ++ [ew]) ∧ ew.frame = some zeroFrame ∧
      Error.Error h (some n) = Except.ok pre ∧
      renderOf (Wrap h stack (asError (some n)) m md)
        = Except.ok (pre ++ (":0:  | " ++ m ++ "\n\t")
            ++ (if md.length > 0 then metaLine md else ""))) := by
  have hz : ∀ lib : Frame, errorFrame (lib :: stack) = zeroFrame := by
    intro lib
    simp only [errorFrame, hs lib]
  have hinv := Reachable_Inv h hr
  obtain ⟨en, hen⟩ : ∃ en, h[n]? = some en := ⟨h[n], List.getElem?_eq_getElem hn⟩
  refine ⟨hz, rfl, rfl, rfl, ?_, ?_⟩
  · obtain ⟨er, hN, hfr, _⟩ := New_foreign_eq h stack t k md
    refine ⟨er, hN, by rw [hfr, hz], ?_⟩
    rw [New_foreign_render, hz, segment, errorLine_primaryText, primaryText_zeroFrame]
    simp
  · obtain ⟨ew, hW, hfr, _⟩ := Wrap_chain_eq h stack n en m md hen
    obtain ⟨pre, hpre, _, hrender⟩ := Inv_render_Wrap h hinv stack n en m md hen
    refine ⟨ew, pre, hW, by rw [hfr, hz], hpre, ?_⟩
    rw [hrender, hz, segment, errorLine_primaryText, primaryText_zeroFrame]
    simp [String.append_assoc]

/-- Witness for C19: calls from the empty stack on `heap1`. -/
theorem frame_capture_failure_witness :
    Reachable heap1 ∧ 0 < heap1.length ∧
    (∀ lib : Frame, callers 3 64 (errorFrameFrame :: lib :: []) = []) ∧
    (∀ lib : Frame, errorFrame (lib :: []) = zeroFrame) ∧
    zeroFrame.File = "" ∧ zeroFrame.Line = 0 ∧ zeroFrame.Function = "" ∧
    (∃ er : Error, New heap1 [] (ErrorValue.foreign "timeout") 7 []
        = Except.ok (some heap1.length, heap1 ++ [er]) ∧ er.frame = some zeroFrame ∧
      renderOf (New heap1 [] (ErrorValue.foreign "timeout") 7 [])
        = Except.ok (":0:  | " ++ "timeout" ++ "\n"
            ++ (if ([] : List Any).length > 0 then metaLine [] else ""))) ∧
    (∃ (ew : Error) (pre : String), Wrap heap1 [] (asError (some 0)) "retry" []
        = Except.ok (some heap1.length, heap1 ++ [ew]) ∧ ew.frame = some zeroFrame ∧
      Error.Error heap1 (some 0) = Except.ok pre ∧
      renderOf (Wrap heap1 [] (asError (some 0)) "retry" [])
        = Except.ok (pre ++ (":0:  | " ++ "retry" ++ "\n\t")
            ++ (if ([] : List Any).length > 0 then metaLine [] else ""))) :=
  ⟨heap1_reachable, by decide, fun _ => rfl,
    frame_capture_failure heap1 [] "timeout" "retry" 7 [] 0 heap1_reachable (by decide)
      (fun _ => rfl)⟩

/-! ## The source test -/

/-- C20: for a node of a reachable heap, `source == self` holds exactly when the node has
no wrapper. The chain of the node, read from its end, is the source node followed by the
other nodes; the source test is true for the source node and false for all others; the
rendering is the concatenation of the segments of these nodes in that order, and the
primary line of a node ends in a newline without tab exactly for the first one. -/
theorem source_iff_no_wrapper (h : Heap) (a : Nat) (e : Error) (hr : Reachable h)
    (ha : h[a]? = some e) :
    (e.source = some a ↔ e.wrapper = none) ∧
    ∃ (path : List Nat) (s : Nat) (rest : List Nat),
      chainOf h h.length a = some path ∧ path.reverse = s :: rest ∧ e.source = some s ∧
      isSourceAt h s = true ∧ (∀ x ∈ rest, isSourceAt h x = false) ∧
      Error.Error h (some a) = Except.ok (concat ((s :: rest).map (nodeSegment h))) ∧
      (∀ x ∈ s :: rest, ∃ (ex : Error) (f : Frame), h[x]? = some ex ∧ ex.frame = some f ∧
        nodeSegment h x = primaryText f ex.Message ++ (if x = s then "\n" else "\n\t")
          ++ (if ex.Metadata.length > 0 then metaLine ex.Metadata else "")) := by
  have hinv := Reachable_Inv h hr
  have hlt := lt_length_of_getElem? h a e ha
  obtain ⟨s, path, rest, hs, hchain, _, hrev, hpair, _, hnodes, hrend⟩ :=
    Inv_chain h hinv a e ha
  have hnodup : (s :: rest).Nodup := by
    rw [← hrev, List.nodup_reverse]
    exact hpair.imp (fun hxy => Nat.ne_of_gt hxy)
  have hmem : ∀ x, x ∈ s :: rest → x ∈ path := by
    intro x hx
    rw [← hrev, List.mem_reverse] at hx
    exact hx
  have hsrcAt : ∀ x, x ∈ s :: rest → isSourceAt h x = decide (x = s) := by
    intro x hx
    obtain ⟨ex, hex, hsx, _⟩ := hnodes x (hmem x hx)
    by_cases hxs : x = s
    · subst hxs
      simp [isSourceAt, hex, hsx]
    · have : ¬ s = x := fun hc => hxs hc.symm
      simp [isSourceAt, hex, hsx, hxs, this]
  refine ⟨Inv_source_iff h hinv a e ha, path, s, rest, hchain h.length (by omega), hrev, hs,
    ?_, ?_, ?_, ?_⟩
  · simpa using hsrcAt s (List.mem_cons_self s rest)
  · intro x hx
    have hne : x ≠ s := by
      intro hc
      subst hc
      exact (List.nodup_cons.mp hnodup).1 hx
    simpa [hne] using hsrcAt x (List.mem_cons_of_mem s hx)
  · have := hrend h.length "" (by omega)
    rw [String.empty_append, hrev] at this
    exact this
  · intro x hx
    obtain ⟨ex, hex, hsx, _⟩ := hnodes x (hmem x hx)
    obtain ⟨⟨f, hf⟩, _⟩ := hinv x ex hex
    refine ⟨ex, f, hex, hf, ?_⟩
    rw [nodeSegment_eq h x ex f hex hf, segment, errorLine_primaryText, hsx]
    by_cases hxs : x = s
    · simp [hxs]
    · have : ¬ s = x := fun hc => hxs hc.symm
      simp [hxs, this]

/-- Witness for C20: the wrapping node of `heap2`. -/
theorem source_iff_no_wrapper_witness :
    Reachable heap2 ∧ heap2[1]? = some (heap2.get ⟨1, by decide⟩) ∧
    ((heap2.get ⟨1, by decide⟩).source = some 1 ↔ (heap2.get ⟨1, by decide⟩).wrapper = none) ∧
    ∃ (path : List Nat) (s : Nat) (rest : List Nat),
      chainOf heap2 heap2.length 1 = some path ∧ path.reverse = s :: rest ∧
      (heap2.get ⟨1, by decide⟩).source = some s ∧
      isSourceAt heap2 s = true ∧ (∀ x ∈ rest, isSourceAt heap2 x = false) ∧
      Error.Error heap2 (some 1) = Except.ok (concat ((s :: rest).map (nodeSegment heap2))) ∧
      (∀ x ∈ s :: rest, ∃ (ex : Error) (f : Frame), heap2[x]? = some ex ∧ ex.frame = some f ∧
        nodeSegment heap2 x = primaryText f ex.Message ++ (if x = s then "\n" else "\n\t")
          ++ (if ex.Metadata.length > 0 then metaLine ex.Metadata else "")) :=
  ⟨heap2_reachable, rfl,
    source_iff_no_wrapper heap2 1 (heap2.get ⟨1, by decide⟩) heap2_reachable rfl⟩

end errs
